import Mathlib

/-!
Shallow embedding of the huml-lsp core (frame transport, JSON-RPC codec,
document synchronization engine, session state machine), translated from
the Rust sources:

* `src/rpc/coding.rs`     — `jsonrpc_encode` / `jsonrpc_decode`
* `src/rpc/transport.rs`  — `RPCMessageStream::get_message_from_reader` / `next`
* `src/lsp/server/state.rs` — `LineSeperatedDocument`, `apply_diff_to_document`
* `src/lsp/server/mod.rs` — `Server`, `handle_initialize_req`, `handle_did_open`,
  `handle_did_change`

Strings are modelled as `List Char` (the document engine slices at character
granularity; the Rust code slices `&str` at byte offsets, which coincides with
character offsets on ASCII text — the "character offset unit" is left open by
the code itself, see spec §9).  Raw wire bytes are modelled as `List Nat`
(each entry one byte value).  Rust panics and out-of-bounds slice indexing are
modelled with `Option`: `none` is an aborted (panicked) computation.
-/

namespace HumlLsp

/-! ## Basic text helpers -/

/-- Model of Rust `char::is_whitespace` restricted to the ASCII whitespace
characters (the only ones that can occur next to a decimal length field). -/
def rustIsWhitespace (c : Char) : Bool :=
  c = ' ' || c = '\t' || c = '\n' || c = '\r' || c = '\x0b' || c = '\x0c'

/-- Model of Rust `str::trim`: drop leading and trailing whitespace. -/
def rustTrim (l : List Char) : List Char :=
  ((l.dropWhile rustIsWhitespace).reverse.dropWhile rustIsWhitespace).reverse

/-- The decimal digit character for `d % 10`-style values. -/
def digitChar (d : Nat) : Char :=
  match d with
  | 0 => '0' | 1 => '1' | 2 => '2' | 3 => '3' | 4 => '4'
  | 5 => '5' | 6 => '6' | 7 => '7' | 8 => '8' | _ => '9'

/-- Numeric value of a decimal digit character. -/
def digitVal (c : Char) : Nat := c.toNat - 48

/-- Most-significant-first decimal digit expansion; `fuel` (any bound above
`n`) makes the recursion structural, so that the definition evaluates inside
the kernel. -/
def natToDecAux : Nat → Nat → List Char
  | 0, _ => []
  | fuel + 1, n =>
    if n < 10 then [digitChar n]
    else natToDecAux fuel (n / 10) ++ [digitChar (n % 10)]

/-- Decimal rendering of a `usize` value, as produced by Rust's `Display`
for unsigned integers (used by `format!("Content-Length: {n}...")`). -/
def natToDec (n : Nat) : List Char := natToDecAux (n + 1) n

/-- Accumulating decimal read of a digit string. -/
def parseDigits (l : List Char) : Nat :=
  l.foldl (fun a c => a * 10 + digitVal c) 0

/-- Model of Rust `str::parse::<usize>()` (on a 64-bit target): an optional
leading `+`, then one or more decimal digits, rejecting values above
`usize::MAX`. -/
def parseUsize (l : List Char) : Option Nat :=
  let l2 := if l.head? = some '+' then l.tail else l
  if l2.isEmpty then none
  else if l2.all Char.isDigit then
    let n := parseDigits l2
    if n < 2 ^ 64 then some n else none
  else none

/-- Strip one trailing carriage return, as Rust `str::lines` does per line. -/
def stripTrailingCR (l : List Char) : List Char :=
  if l.getLast? = some '\r' then l.dropLast else l

/-- Model of Rust `str::lines()` collected into a vector: split on `'\n'`,
drop a final empty piece (so a trailing newline adds no line and the empty
string has no lines), and strip one trailing `'\r'` from each piece. -/
def rustLines (t : List Char) : List (List Char) :=
  let ps := t.splitOn '\n'
  let ps := if ps.getLast? = some [] then ps.dropLast else ps
  ps.map stripTrailingCR

/-- Model of Rust slice indexing `v[s..=e]` (panics, i.e. `none`, unless
`s ≤ e + 1 ∧ e + 1 ≤ v.len()`). -/
def rustSliceIncl (l : List (List Char)) (s e : Nat) : Option (List (List Char)) :=
  if s ≤ e + 1 ∧ e + 1 ≤ l.length then some ((l.drop s).take (e + 1 - s)) else none

/-- Model of Rust slice indexing `v[i..]` (panics unless `i ≤ v.len()`). -/
def rustSliceFrom (l : List (List Char)) (i : Nat) : Option (List (List Char)) :=
  if i ≤ l.length then some (l.drop i) else none

/-- Model of Rust string slicing `&s[..p]` (panics when `p` is past the end). -/
def rustStrTake (s : List Char) (p : Nat) : Option (List Char) :=
  if p ≤ s.length then some (s.take p) else none

/-- Model of Rust string slicing `&s[p..]` (panics when `p` is past the end). -/
def rustStrDrop (s : List Char) (p : Nat) : Option (List Char) :=
  if p ≤ s.length then some (s.drop p) else none

/-! ## Arithmetic / list facts about the helpers -/

/-! ## Document model (`src/lsp/common/text_document.rs`, `src/lsp/server/state.rs`) -/

/-- A zero-based (line, character-offset) pair; `src/lsp/common/text_document.rs`. -/
structure Position where
  line : Nat
  character : Nat
deriving DecidableEq, Repr

/-- An ordered pair of positions; `src/lsp/common/text_document.rs`.  The Rust
field `end` is called `stop` here (`end` is a Lean keyword). -/
structure Range where
  start : Position
  stop : Position
deriving DecidableEq, Repr

/-- `TextDocumentItemOwned` from `src/lsp/common/text_document.rs`.  `version`
is an `i32` in Rust; it is only stored and compared here, never computed with,
so it is modelled as `Int`. -/
structure TextDocumentItemOwned where
  uri : String
  language_id : String
  version : Int
  text : List Char
deriving DecidableEq, Repr

/-- `LineSeperatedDocument` from `src/lsp/server/state.rs`: the full document
plus the derived table of lines.  The Rust struct stores borrowed `&str`
slices of its own text; here the lines are owned copies, which carry the same
information. -/
structure LineSeperatedDocument where
  full_document : TextDocumentItemOwned
  lines : List (List Char)
deriving DecidableEq, Repr

/-- `From<TextDocumentItemOwned> for LineSeperatedDocument`
(`src/lsp/server/state.rs`): build the line table with `text.lines()`. -/
def LineSeperatedDocument.ofDoc (d : TextDocumentItemOwned) : LineSeperatedDocument :=
  ⟨d, rustLines d.text⟩

/-- One iteration of the loop body of `apply_diff_to_document`
(`src/lsp/server/state.rs` lines 37-67): apply a single `(range, replace_with)`
edit to a line table.  `none` models a panic (the explicit out-of-sync panic,
or an out-of-bounds slice index). -/
def applyOneEdit (lines : List (List Char)) (range : Range)
    (replace_with : List Char) : Option (List Char) := do
  let start_line := range.start.line
  let start_pos := range.start.character
  let end_line := range.stop.line
  let end_pos := range.stop.character
  if start_line > lines.length || end_line > lines.length then
    none  -- panic "Document out of sync. Changes suggested outside range"
  else
    let before_start := lines.take start_line
    let stale_lines ← rustSliceIncl lines start_line end_line
    let after_end ← rustSliceFrom lines (end_line + 1)
    let piece_first ←
      match stale_lines.head? with
      | none => some []
      | some stale_line_first => rustStrTake stale_line_first start_pos
    let piece_last ←
      match stale_lines.getLast? with
      | none => some []
      | some stale_line_last => rustStrDrop stale_line_last end_pos
    let changed_region := piece_first ++ replace_with ++ piece_last
    some (List.intercalate ['\n'] (before_start ++ [changed_region] ++ after_end))

/-- `LineSeperatedDocument::apply_diff_to_document` (`src/lsp/server/state.rs`
lines 32-69).  Note the Rust loop recomputes `document` from `self.with_lines`
— the line table of the ORIGINAL document — on every iteration, starting from
`String::new()`; each iteration's result overwrites the previous one. -/
def LineSeperatedDocument.apply_diff_to_document (d : LineSeperatedDocument)
    (diff : List (Range × List Char)) : Option (List Char) :=
  diff.foldlM (fun _document rc => applyOneEdit d.lines rc.1 rc.2) ([] : List Char)

/-! ## Session state machine (`src/lsp/server/mod.rs`) -/

/-- `TextDocumentSyncClientCapabilities` (`src/lsp/capabilities/client.rs`). -/
structure TextDocumentSyncClientCapabilities where
  dynamic_registration : Bool
  will_save : Bool
  will_save_wait_until : Bool
  did_save : Bool
deriving DecidableEq, Repr

/-- `TextDocumentClientCapabilities` (`src/lsp/capabilities/client.rs`). -/
structure TextDocumentClientCapabilities where
  synchronization : Option TextDocumentSyncClientCapabilities
deriving DecidableEq, Repr

/-- `ClientCapabilities` (`src/lsp/capabilities/client.rs`). -/
structure ClientCapabilities where
  text_document : Option TextDocumentClientCapabilities
deriving DecidableEq, Repr

/-- `ClientInfo` (`src/lsp/request/initialize.rs`). -/
structure ClientInfo where
  name : String
  version : String
deriving DecidableEq, Repr

/-- `WorkspaceFolder` (`src/lsp/request/initialize.rs`). -/
structure WorkspaceFolder where
  uri : String
  name : String
deriving DecidableEq, Repr

/-- `InitializeParams` (`src/lsp/request/initialize.rs`). -/
structure InitializeParams where
  process_id : Option Int
  client_info : Option ClientInfo
  capabilities : ClientCapabilities
  workspace_folders : Option WorkspaceFolder
deriving DecidableEq, Repr

/-- `TraceValue` (`src/lsp/notification/trace.rs`). -/
inductive TraceValue where
  | off
  | message
  | verbose
deriving DecidableEq, Repr

/-- `InitializeResult` (`src/lsp/response/initialize.rs`).  Its contents
(server capabilities / server info) are pure data-transfer schemas excluded
from the core, so it is modelled as a unit structure; only its identity as
the success payload of `initialize` matters here. -/
structure InitializeResult where
deriving DecidableEq, Repr

/-- `ResponseResult` (`src/lsp/response/mod.rs`). -/
inductive ResponseResult where
  | initializeRes (r : InitializeResult)
  | shutdown
deriving DecidableEq, Repr

/-- `ResponsePayload` (`src/lsp/response/mod.rs`).  The `data` field has type
`Option<LSPAny>` in Rust; the only value the modelled code ever constructs is
`None`, so it is modelled as `Option Unit`. -/
inductive ResponsePayload where
  | result (r : ResponseResult)
  | error (code : Int) (message : String) (data : Option Unit)
deriving DecidableEq, Repr

/-- `InitializedServerState` (`src/lsp/server/state.rs`).  The Rust field
`_client_capabilities` is called `client_capabilities` here; the
`notification_sender` channel handle is an I/O resource and carries no
modelled state. -/
structure InitializedServerState where
  client_capabilities : ClientCapabilities
  is_client_initialized : Bool
  trace : TraceValue
  documents : List LineSeperatedDocument
deriving DecidableEq, Repr

/-- The `Server` state machine enum (`src/lsp/server/mod.rs`). -/
inductive Server where
  | uninitialized
  | initialized (st : InitializedServerState)
  | shutdown
deriving DecidableEq, Repr

/-- `Server::handle_initialize_req` (`src/lsp/server/mod.rs` lines 96-127):
error −32002 when already `Initialized` (state untouched); otherwise install a
fresh `InitializedServerState` and answer with `InitializeResult::default()`.
The `log_message` side effect (a channel send) does not change the modelled
state. -/
def handle_initialize_req (s : Server) (params : InitializeParams) :
    Server × ResponsePayload :=
  match s with
  | .initialized _ =>
      (s, .error (-32002) "Server is already initialized" none)
  | _ =>
      (.initialized
          { client_capabilities := params.capabilities
            is_client_initialized := false
            trace := .off
            documents := [] },
        .result (.initializeRes ⟨⟩))

/-- `Server::handle_shutdown_req` (`src/lsp/server/mod.rs`). -/
def handle_shutdown_req (_s : Server) : Server × ResponsePayload :=
  (.shutdown, .result .shutdown)

/-- First document whose URI matches, together with its index — models
`documents.iter().position(...)` / `documents.iter_mut().find(...)`. -/
def findDocIdx : List LineSeperatedDocument → String →
    Option (Nat × LineSeperatedDocument)
  | [], _ => none
  | d :: rest, uri =>
      if d.full_document.uri = uri then some (0, d)
      else (findDocIdx rest uri).map (fun p => (p.1 + 1, p.2))

/-- `Server::handle_did_open` (`src/lsp/server/mod.rs`): replace the document
with the same URI, or push a new one.  `none` models the panic taken when the
server is not `Initialized` (`log_message` and the `match` both panic then). -/
def handle_did_open (s : Server) (doc : TextDocumentItemOwned) : Option Server :=
  match s with
  | .initialized st =>
      let lsd := LineSeperatedDocument.ofDoc doc
      some (.initialized
        { st with
          documents :=
            match findDocIdx st.documents doc.uri with
            | some p => st.documents.set p.1 lsd
            | none => st.documents ++ [lsd] })
  | _ => none

/-- `TextDocumentContentChangeEvent` (`src/lsp/notification/did_change.rs`). -/
structure ContentChangeEvent where
  range : Option Range
  text : List Char
deriving DecidableEq, Repr

/-- `DidChangeTextDocumentParams` (`src/lsp/notification/did_change.rs`),
flattening the versioned identifier into `uri` and `version`. -/
structure DidChangeParams where
  uri : String
  version : Int
  content_changes : List ContentChangeEvent
deriving DecidableEq, Repr

/-- `Server::handle_did_change` (`src/lsp/server/mod.rs` lines 217-259):
silent no-op for an unknown URI; otherwise keep only the changes that carry a
range (`filter_map`), run `apply_diff_to_document` once over that list, and
replace the stored document with a rebuilt `LineSeperatedDocument` at the
notification's version.  `none` models a panic (not initialized, or a panic
inside `apply_diff_to_document`). -/
def handle_did_change (s : Server) (params : DidChangeParams) : Option Server :=
  match s with
  | .initialized st =>
      match findDocIdx st.documents params.uri with
      | none => some (.initialized st)
      | some (i, document_lines) =>
          let change_diff := params.content_changes.filterMap
            (fun change => change.range.map (fun r => (r, change.text)))
          match document_lines.apply_diff_to_document change_diff with
          | none => none
          | some diff_applied_text =>
              let updated := LineSeperatedDocument.ofDoc
                { uri := document_lines.full_document.uri
                  language_id := document_lines.full_document.language_id
                  version := params.version
                  text := diff_applied_text }
              some (.initialized { st with documents := st.documents.set i updated })
  | _ => none

/-- The derived-line-table invariant of the spec's data model (§3): every
stored line table equals the line decomposition of the stored text. -/
def docsConsistent (s : Server) : Prop :=
  match s with
  | .initialized st =>
      ∀ d ∈ st.documents, d.lines = rustLines d.full_document.text
  | _ => True

/-! ## Frame transport (`src/rpc/transport.rs`, errors from `src/rpc/error.rs`) -/

/-- `DecodeError` (`src/rpc/error.rs`).  The Rust variants carry error details
(`Utf8Error`, `ParseIntError`, `serde_json::Error`); only the variant identity
is modelled. -/
inductive DecodeError where
  | missingOrInvalidHeader
  | invalidContentLengthEncoding
  | contentLengthNotNumber
  | incompleteData
  | jsonError
deriving DecidableEq, Repr

/-- The bytes of `RPC_HEADER_PREFIX = "Content-Length: "` (`src/rpc/coding.rs`). -/
def rpcHeaderBytes : List Nat := "Content-Length: ".data.map Char.toNat

/-- `RPC_HEADER_LEN` (`src/rpc/coding.rs`): the byte length of the header
prologue, 16. -/
def rpcHeaderLen : Nat := rpcHeaderBytes.length

/-- Model of Rust `str::from_utf8`: strict UTF-8 decoding of a byte list,
rejecting stray/missing continuation bytes, overlong forms, surrogate code
points and values above `U+10FFFF`, exactly as the Rust standard library
does. -/
def utf8Decode? : List Nat → Option (List Char)
  | [] => some []
  | b :: rest =>
    if b < 0x80 then
      (utf8Decode? rest).map (Char.ofNat b :: ·)
    else if 0xC2 ≤ b ∧ b ≤ 0xDF then
      match rest with
      | c1 :: rest2 =>
        if 0x80 ≤ c1 ∧ c1 ≤ 0xBF then
          (utf8Decode? rest2).map (Char.ofNat ((b - 0xC0) * 64 + (c1 - 0x80)) :: ·)
        else none
      | [] => none
    else if 0xE0 ≤ b ∧ b ≤ 0xEF then
      match rest with
      | c1 :: c2 :: rest2 =>
        if (if b = 0xE0 then 0xA0 ≤ c1 ∧ c1 ≤ 0xBF
            else if b = 0xED then 0x80 ≤ c1 ∧ c1 ≤ 0x9F
            else 0x80 ≤ c1 ∧ c1 ≤ 0xBF) ∧ 0x80 ≤ c2 ∧ c2 ≤ 0xBF then
          (utf8Decode? rest2).map
            (Char.ofNat ((b - 0xE0) * 4096 + (c1 - 0x80) * 64 + (c2 - 0x80)) :: ·)
        else none
      | _ => none
    else if 0xF0 ≤ b ∧ b ≤ 0xF4 then
      match rest with
      | c1 :: c2 :: c3 :: rest2 =>
        if (if b = 0xF0 then 0x90 ≤ c1 ∧ c1 ≤ 0xBF
            else if b = 0xF4 then 0x80 ≤ c1 ∧ c1 ≤ 0x8F
            else 0x80 ≤ c1 ∧ c1 ≤ 0xBF) ∧
            0x80 ≤ c2 ∧ c2 ≤ 0xBF ∧ 0x80 ≤ c3 ∧ c3 ≤ 0xBF then
          (utf8Decode? rest2).map
            (Char.ofNat ((b - 0xF0) * 262144 + (c1 - 0x80) * 4096 +
              (c2 - 0x80) * 64 + (c3 - 0x80)) :: ·)
        else none
      | _ => none
    else none

/-- Outcome of one pass over the accumulation buffer in
`RPCMessageStream::get_message_from_reader`: keep reading (`continue`), fail,
or a complete frame ending at `endIdx`. -/
inductive CheckResult where
  | needMore
  | fail (e : DecodeError)
  | done (endIdx : Nat)
deriving DecidableEq, Repr

/-- The per-iteration body of the `loop` in
`RPCMessageStream::get_message_from_reader` (`src/rpc/transport.rs` lines
24-84), examining the accumulation buffer after a read has appended bytes:
wait unless more than `RPC_HEADER_LEN` bytes arrived; fail unless the buffer
starts with the header prologue; wait until a `\r` appears after it; decode
and parse the declared length; wait until the whole body has arrived. -/
def checkBuffer (buf : List Nat) : CheckResult :=
  if buf.length ≤ rpcHeaderLen then .needMore
  else if rpcHeaderBytes.isPrefixOf buf then
    match (buf.drop rpcHeaderLen).findIdx? (fun byte => byte == 13) with
    | none => .needMore
    | some content_length_digits =>
      -- double_crlf_loc = rpcHeaderLen + content_length_digits;
      -- body_end_pos = double_crlf_loc + "\r\n\r\n".len() + content_length
      match utf8Decode? ((buf.drop rpcHeaderLen).take content_length_digits) with
      | none => .fail .invalidContentLengthEncoding
      | some content_length_str =>
        match parseUsize (rustTrim content_length_str) with
        | none => .fail .contentLengthNotNumber
        | some content_length =>
          if buf.length < rpcHeaderLen + content_length_digits + 4 + content_length
          then .needMore
          else .done (rpcHeaderLen + content_length_digits + 4 + content_length)
  else .fail .missingOrInvalidHeader

/-- A byte sequence that is exactly one well-formed frame: the buffer scan
succeeds and the frame ends exactly at the end of the sequence. -/
def wellFormedFrame (f : List Nat) : Prop :=
  checkBuffer f = .done f.length

instance (f : List Nat) : Decidable (wellFormedFrame f) := by
  unfold wellFormedFrame; infer_instance

deriving instance DecidableEq for Except

/-- Outcome of one `RPCMessageStream::next` call driven by a finite chunk
queue: the queue ran out with the frame still incomplete (the real reader
would keep blocking), the final `str::from_utf8(...).expect(...)` on the
complete frame panicked, or an item was produced together with the buffer
left behind after the drain. -/
inductive StreamResult where
  | outOfInput
  | panicked
  | next (item : Except DecodeError (List Nat)) (buffer : List Nat)
deriving DecidableEq, Repr

/-- Model of `RPCMessageStream::next` (`src/rpc/transport.rs` lines 87-103)
fed by a queue of read chunks (each chunk one `reader.read` result; an empty
chunk models a zero-byte read).  The loop appends the next chunk, then runs
the buffer scan; on `done e` the message is `buffer[..e]`, which
`get_message_from_reader` finally passes through
`str::from_utf8(...).expect("Invalid Message Format - Conversion to utf8
failed")` — a panic (`.panicked`) when the frame bytes are not valid UTF-8 —
and on success `next` drains exactly `message.len() = e` bytes; on a scan
failure the error is yielded and nothing is drained. -/
def runStream (buf : List Nat) : List (List Nat) → StreamResult
  | [] => .outOfInput
  | c :: cs =>
    match checkBuffer (buf ++ c) with
    | .needMore => runStream (buf ++ c) cs
    | .fail e => .next (.error e) (buf ++ c)
    | .done endIdx =>
      match utf8Decode? ((buf ++ c).take endIdx) with
      | none => .panicked
      | some _ => .next (.ok ((buf ++ c).take endIdx)) ((buf ++ c).drop endIdx)

/-! ### Monotonicity of the buffer scan -/

/-! ### The chunked reader agrees with the unsplit reader -/

/-! ## JSON values and a model of the serde_json collaborator

`serde_json` is an external library; the codec treats it as a black-box
serializer/deserializer pair.  To state concrete scenarios and to establish
that serialized output never contains a raw carriage return (serde escapes
every control character inside strings), a concrete JSON value type with a
compact serializer and a recursive-descent parser is embedded here. -/

mutual

/-- A JSON document value.  Numbers are restricted to integers (`i32`/`usize`
cover every numeric field of the modelled protocol structures).  Arrays and
objects carry their children through the mutual types `JsonList` and
`JsonFields` (rather than `List Json`) so that every function over JSON is
plain structural recursion, evaluable inside the kernel. -/
inductive Json where
  | null
  | bool (b : Bool)
  | num (i : Int)
  | str (s : List Char)
  | arr (items : JsonList)
  | obj (fields : JsonFields)
deriving Repr

/-- The item sequence of a JSON array. -/
inductive JsonList where
  | nil
  | cons (hd : Json) (tl : JsonList)
deriving Repr

/-- The `"key": value` sequence of a JSON object. -/
inductive JsonFields where
  | nil
  | cons (key : List Char) (val : Json) (tl : JsonFields)
deriving Repr

end

/-- Lowercase hexadecimal digit, as in serde_json's escape table. -/
def hexDigit (d : Nat) : Char :=
  if d < 10 then digitChar d
  else if d = 10 then 'a' else if d = 11 then 'b' else if d = 12 then 'c'
  else if d = 13 then 'd' else if d = 14 then 'e' else 'f'

/-- JSON string escaping as serde_json performs it: quote, backslash and the
common control characters get two-character escapes, any other control
character becomes `\u00XX`, everything else is passed through. -/
def escapeChar (c : Char) : List Char :=
  if c = '"' then ['\\', '"']
  else if c = '\\' then ['\\', '\\']
  else if c = '\n' then ['\\', 'n']
  else if c = '\r' then ['\\', 'r']
  else if c = '\t' then ['\\', 't']
  else if c = '\x08' then ['\\', 'b']
  else if c = '\x0c' then ['\\', 'f']
  else if c.toNat < 0x20 then
    ['\\', 'u', '0', '0', hexDigit (c.toNat / 16), hexDigit (c.toNat % 16)]
  else [c]

def escapeString (s : List Char) : List Char :=
  (s.map escapeChar).flatten

/-- Decimal rendering of an `Int` (Rust `Display` for integers). -/
def intRepr : Int → List Char
  | .ofNat n => natToDec n
  | .negSucc n => '-' :: natToDec (n + 1)

mutual

/-- Compact JSON serialization, modelling `serde_json::to_string`. -/
def serializeJson : Json → List Char
  | .null => "null".data
  | .bool b => if b then "true".data else "false".data
  | .num i => intRepr i
  | .str s => '"' :: (escapeString s ++ ['"'])
  | .arr items => '[' :: (serializeItems items ++ [']'])
  | .obj fields => '\x7b' :: (serializeFields fields ++ ['\x7d'])

/-- Comma-separated serialization of array items. -/
def serializeItems : JsonList → List Char
  | .nil => []
  | .cons x .nil => serializeJson x
  | .cons x (.cons y tl) => serializeJson x ++ ',' :: serializeItems (.cons y tl)

/-- Comma-separated serialization of `"key": value` object fields. -/
def serializeFields : JsonFields → List Char
  | .nil => []
  | .cons k v .nil => '"' :: (escapeString k ++ ['"', ':'] ++ serializeJson v)
  | .cons k v (.cons k2 v2 tl) =>
      '"' :: (escapeString k ++ ['"', ':'] ++ serializeJson v) ++
        ',' :: serializeFields (.cons k2 v2 tl)

end

/-- JSON whitespace skipping. -/
def skipWs (s : List Char) : List Char :=
  s.dropWhile (fun c => c = ' ' || c = '\t' || c = '\n' || c = '\r')

/-- Body of a JSON string literal after the opening quote: returns the decoded
characters and the remainder after the closing quote.  `\uXXXX` escapes are
not modelled (no modelled scenario uses them); raw control characters are
rejected as serde_json does. -/
def parseStringBody : List Char → Option (List Char × List Char)
  | [] => none
  | c :: rest =>
    if c = '"' then some ([], rest)
    else if c = '\\' then
      match rest with
      | [] => none
      | e :: rest2 =>
        let ec? : Option Char :=
          if e = '"' then some '"'
          else if e = '\\' then some '\\'
          else if e = '/' then some '/'
          else if e = 'n' then some '\n'
          else if e = 'r' then some '\r'
          else if e = 't' then some '\t'
          else if e = 'b' then some '\x08'
          else if e = 'f' then some '\x0c'
          else none
        match ec? with
        | none => none
        | some ec =>
          match parseStringBody rest2 with
          | none => none
          | some (cs, r) => some (ec :: cs, r)
    else if c.toNat < 0x20 then none
    else
      match parseStringBody rest with
      | none => none
      | some (cs, r) => some (c :: cs, r)

mutual

/-- Recursive-descent JSON value parser (model of `serde_json::from_str`'s
value grammar, minus floating-point fractions/exponents and `\u` escapes,
which no modelled scenario exercises).  `fuel` bounds the recursion depth. -/
def parseValue : Nat → List Char → Option (Json × List Char)
  | 0, _ => none
  | fuel + 1, s =>
    match skipWs s with
    | [] => none
    | c :: rest =>
      if c = 'n' then
        if ['u', 'l', 'l'].isPrefixOf rest then some (.null, rest.drop 3) else none
      else if c = 't' then
        if ['r', 'u', 'e'].isPrefixOf rest then some (.bool true, rest.drop 3) else none
      else if c = 'f' then
        if ['a', 'l', 's', 'e'].isPrefixOf rest then some (.bool false, rest.drop 4)
        else none
      else if c = '"' then
        match parseStringBody rest with
        | none => none
        | some (cs, r) => some (.str cs, r)
      else if c = '[' then
        match skipWs rest with
        | ']' :: r => some (.arr .nil, r)
        | _ =>
          match parseItems fuel rest with
          | none => none
          | some (vs, r) => some (.arr vs, r)
      else if c = '\x7b' then
        match skipWs rest with
        | '\x7d' :: r => some (.obj .nil, r)
        | _ =>
          match parseFields fuel rest with
          | none => none
          | some (kvs, r) => some (.obj kvs, r)
      else if c = '-' || c.isDigit then
        let neg := c = '-'
        let digitsSrc := if neg then rest else c :: rest
        let ds := digitsSrc.takeWhile Char.isDigit
        if ds.isEmpty then none
        else
          let value : Int := (parseDigits ds : Nat)
          some (.num (if neg then -value else value), digitsSrc.dropWhile Char.isDigit)
      else none

/-- One or more comma-separated array items followed by `]`. -/
def parseItems : Nat → List Char → Option (JsonList × List Char)
  | 0, _ => none
  | fuel + 1, s =>
    match parseValue fuel s with
    | none => none
    | some (v, r1) =>
      match skipWs r1 with
      | ',' :: r2 =>
        match parseItems fuel r2 with
        | none => none
        | some (vs, r3) => some (.cons v vs, r3)
      | ']' :: r2 => some (.cons v .nil, r2)
      | _ => none

/-- One or more comma-separated `"key": value` pairs followed by `}`. -/
def parseFields : Nat → List Char → Option (JsonFields × List Char)
  | 0, _ => none
  | fuel + 1, s =>
    match skipWs s with
    | '"' :: r0 =>
      match parseStringBody r0 with
      | none => none
      | some (k, r1) =>
        match skipWs r1 with
        | ':' :: r2 =>
          match parseValue fuel r2 with
          | none => none
          | some (v, r3) =>
            match skipWs r3 with
            | ',' :: r4 =>
              match parseFields fuel r4 with
              | none => none
              | some (kvs, r5) => some (.cons k v kvs, r5)
            | '\x7d' :: r4 => some (.cons k v .nil, r4)
            | _ => none
        | _ => none
    | _ => none

end

/-- Model of `serde_json::from_str` for a full document: parse one value and
require only whitespace to remain. -/
def jsonParse (s : List Char) : Option Json :=
  match parseValue (s.length + 1) s with
  | some (v, rest) => if (skipWs rest).isEmpty then some v else none
  | none => none

/-! ## JSON-RPC codec (`src/rpc/coding.rs`) -/

/-- `RPC_HEADER_PREFIX = "Content-Length: "` as characters. -/
def rpcHeaderChars : List Char := "Content-Length: ".data

/-- The header/body separator `\r\n\r\n`. -/
def crlf2 : List Char := "\r\n\r\n".data

/-- Index of the first occurrence of `sep` as a contiguous substring. -/
def findSubstrIdx (sep : List Char) : List Char → Option Nat
  | [] => if sep.isEmpty then some 0 else none
  | c :: rest =>
    if sep.isPrefixOf (c :: rest) then some 0
    else (findSubstrIdx sep rest).map (· + 1)

/-- The first two items of Rust's `data.split(sep)` iterator: the text before
the first occurrence of `sep`, and (when a first occurrence exists) the text
between the first occurrence and the second occurrence or the end. -/
def splitFirstTwo (sep data : List Char) : List Char × Option (List Char) :=
  match findSubstrIdx sep data with
  | none => (data, none)
  | some i =>
    let rest := data.drop (i + sep.length)
    match findSubstrIdx sep rest with
    | none => (data.take i, some rest)
    | some j => (data.take i, some (rest.take j))

/-- `jsonrpc_encode` (`src/rpc/coding.rs` lines 12-19), parameterized by the
serde serializer for the payload type:
`format!("Content-Length: {content_length}\r\n\r\n{json}")` where
`content_length = json.len()`.  (The Rust `Result` is always `Ok` here: the
only failure source is `serde_json::to_string`, and the modelled serializers
are total.) -/
def jsonrpc_encode (serialize : α → List Char) (data : α) : List Char :=
  rpcHeaderChars ++ natToDec (serialize data).length ++ crlf2 ++ serialize data

/-- `jsonrpc_decode` (`src/rpc/coding.rs` lines 24-56), parameterized by the
serde deserializer for the target type.  The Rust code splits on `\r\n\r\n`
(the first `.next()` always succeeds — `split` yields at least one piece — so
its `MissingOrInvalidHeader` arm is dead; a missing separator surfaces as
`IncompleteData` from the second `.next()`), then checks the header prologue,
parses the declared length from `header[16..]`, compares it against the body
length, and finally runs the deserializer. -/
def jsonrpc_decode (deserialize : List Char → Option α) (data : List Char) :
    Except DecodeError α :=
  match (splitFirstTwo crlf2 data).2 with
  | none => .error .incompleteData
  | some body =>
    let header := (splitFirstTwo crlf2 data).1
    if rpcHeaderChars.isPrefixOf header then
      match parseUsize (rustTrim (header.drop rpcHeaderLen)) with
      | none => .error .contentLengthNotNumber
      | some content_length =>
        if body.length ≠ content_length then .error .incompleteData
        else
          match deserialize body with
          | none => .error .jsonError
          | some v => .ok v
    else .error .missingOrInvalidHeader

/-- The struct of the codec's own unit tests
(`src/rpc/coding.rs`, `struct TestStruct { jsonrpc: String }`). -/
structure TestStruct where
  jsonrpc : List Char
deriving DecidableEq, Repr

/-- First field with the given key, if any. -/
def findField (key : List Char) : JsonFields → Option Json
  | .nil => none
  | .cons k v tl => if k = key then some v else findField key tl

/-- `serde_json::from_str::<TestStruct>`: the body must be a JSON object with
a string `jsonrpc` field. -/
def testStructDeser (s : List Char) : Option TestStruct :=
  match jsonParse s with
  | some (.obj fields) =>
    match findField "jsonrpc".data fields with
    | some (.str v) => some ⟨v⟩
    | _ => none
  | _ => none

/-! ### serialized JSON never contains a raw carriage return -/

/-! ### Locating the header/body separator -/

/-! ## Concrete inputs for the spec's concrete scenarios -/

/-- The payload of the codec's own unit tests: a JSON object with the single
string field `jsonrpc = "2.0"` (17 characters when serialized). -/
def jsonV0 : Json := .obj (.cons "jsonrpc".data (.str "2.0".data) .nil)

/-- A complete frame with a two-byte body: `Content-Length: 2\r\n\r\n{}`. -/
def frameA : List Nat :=
  ("Content-Length: 2\r\n\r\n" ++ "\x7b\x7d").data.map Char.toNat

/-- The body bytes of `frameA` alone. -/
def bodyA : List Nat := "\x7b\x7d".data.map Char.toNat

/-- The frame of the codec test: `Content-Length: 17\r\n\r\n{"jsonrpc":"2.0"}`
as bytes. -/
def frameB : List Nat :=
  ("Content-Length: 17\r\n\r\n" ++ "\x7b\"jsonrpc\":\"2.0\"\x7d").data.map Char.toNat

/-- `frameA` split into chunks of uneven sizes, one of them empty — splits
fall inside the header and inside the body. -/
def chunksA : List (List Nat) :=
  [frameA.take 3, [], (frameA.drop 3).take 10, frameA.drop 13]

/-- The codec test's wire text, at character level. -/
def good17 : List Char :=
  ("Content-Length: 17\r\n\r\n" ++ "\x7b\"jsonrpc\":\"2.0\"\x7d").data

/-- The same body with no header prefix (and hence no `\r\n\r\n`). -/
def bare17 : List Char := "\x7b\"jsonrpc\":\"2.0\"\x7d".data

/-- A separator-bearing wire text whose header does not start with
`Content-Length: `. -/
def badPrologue17 : List Char :=
  ("Nonsense-Header: 17\r\n\r\n" ++ "\x7b\"jsonrpc\":\"2.0\"\x7d").data

/-- A declared length that does not match the actual body length. -/
def wrongLen17 : List Char :=
  ("Content-Length: 18\r\n\r\n" ++ "\x7b\"jsonrpc\":\"2.0\"\x7d").data

/-- A non-numeric declared length. -/
def notNumber17 : List Char :=
  ("Content-Length: abc\r\n\r\n" ++ "\x7b\"jsonrpc\":\"2.0\"\x7d").data

/-- A correctly framed body that is not well-formed JSON. -/
def badBody7 : List Char := ("Content-Length: 7\r\n\r\n" ++ "notjson").data

/-- A one-line document `abcd`, for the multi-edit scenario. -/
def docAb : LineSeperatedDocument := .ofDoc ⟨"file:///a.huml", "huml", 1, "abcd".data⟩

/-- First edit: replace character 0 (`a`) by `X`. -/
def editX : Range × List Char := (⟨⟨0, 0⟩, ⟨0, 1⟩⟩, "X".data)

/-- Second edit: replace character 1 by `Y` — adjacent to `editX` and not
overlapping it. -/
def editY : Range × List Char := (⟨⟨0, 1⟩, ⟨0, 2⟩⟩, "Y".data)

/-- An initialized state holding one open document with text `old`. -/
def stOld : InitializedServerState :=
  { client_capabilities := ⟨none⟩
    is_client_initialized := false
    trace := .off
    documents := [.ofDoc ⟨"file:///d.huml", "huml", 1, "old".data⟩] }

/-- A didChange carrying a single full-document replacement (range absent). -/
def fullReplaceParams : DidChangeParams :=
  ⟨"file:///d.huml", 2, [⟨none, "new".data⟩]⟩

/-- A didChange whose content changes all lack a range. -/
def allRangelessParams : DidChangeParams :=
  ⟨"file:///d.huml", 3, [⟨none, "x".data⟩, ⟨none, "y".data⟩]⟩

/-- Initialize-request parameters with empty capabilities. -/
def emptyInitParams : InitializeParams := ⟨none, none, ⟨none⟩, none⟩

/-- An initialized state with an empty document store. -/
def stEmpty : InitializedServerState :=
  { client_capabilities := ⟨none⟩
    is_client_initialized := false
    trace := .off
    documents := [] }

/-- A two-line document to open in the invariant scenario. -/
def docW : TextDocumentItemOwned := ⟨"file:///w.huml", "huml", 1, "a\nb".data⟩

/-! # Theorems -/

theorem digitVal_digitChar {d : Nat} (h : d < 10) : digitVal (digitChar d) = d := by
  interval_cases d <;> decide

theorem digitChar_facts : ∀ d, d < 10 →
    (digitChar d).isDigit = true ∧ rustIsWhitespace (digitChar d) = false ∧
      digitChar d ≠ '+' := by decide

theorem natToDecAux_ne_nil : ∀ fuel n, n < fuel → natToDecAux fuel n ≠ [] := by
  intro fuel
  induction fuel with
  | zero => intro n h; omega
  | succ fuel _ =>
    intro n _
    unfold natToDecAux
    split
    · simp
    · simp

theorem natToDec_ne_nil (n : Nat) : natToDec n ≠ [] :=
  natToDecAux_ne_nil (n + 1) n (by omega)

theorem natToDecAux_chars : ∀ fuel n, n < fuel →
    ∀ c ∈ natToDecAux fuel n, ∃ d, d < 10 ∧ c = digitChar d := by
  intro fuel
  induction fuel with
  | zero => intro n h; omega
  | succ fuel ih =>
    intro n hn
    unfold natToDecAux
    split
    · intro c hc
      simp at hc
      subst hc
      exact ⟨n, by omega, rfl⟩
    · intro c hc
      rename_i h
      rcases List.mem_append.mp hc with h1 | h2
      · have hdiv : n / 10 < fuel := by
          have := Nat.div_lt_self (show 0 < n by omega) (show 1 < 10 by omega)
          omega
        exact ih (n / 10) hdiv c h1
      · simp at h2
        subst h2
        exact ⟨n % 10, Nat.mod_lt _ (by omega), rfl⟩

theorem natToDec_chars (n : Nat) :
    ∀ c ∈ natToDec n, ∃ d, d < 10 ∧ c = digitChar d :=
  natToDecAux_chars (n + 1) n (by omega)

theorem natToDec_all_digits (n : Nat) : ∀ c ∈ natToDec n, c.isDigit = true := by
  intro c hc
  obtain ⟨d, hd, rfl⟩ := natToDec_chars n c hc
  exact (digitChar_facts d hd).1

theorem natToDec_no_ws (n : Nat) : ∀ c ∈ natToDec n, rustIsWhitespace c = false := by
  intro c hc
  obtain ⟨d, hd, rfl⟩ := natToDec_chars n c hc
  exact (digitChar_facts d hd).2.1

theorem parseDigits_append_singleton (l : List Char) (c : Char) :
    parseDigits (l ++ [c]) = parseDigits l * 10 + digitVal c := by
  simp [parseDigits, List.foldl_append]

theorem parseDigits_natToDecAux : ∀ fuel n, n < fuel →
    parseDigits (natToDecAux fuel n) = n := by
  intro fuel
  induction fuel with
  | zero => intro n h; omega
  | succ fuel ih =>
    intro n hn
    unfold natToDecAux
    split
    · rename_i h
      simp [parseDigits, digitVal_digitChar h]
    · rename_i h
      have hdiv : n / 10 < fuel := by
        have := Nat.div_lt_self (show 0 < n by omega) (show 1 < 10 by omega)
        omega
      rw [parseDigits_append_singleton, ih (n / 10) hdiv,
        digitVal_digitChar (Nat.mod_lt _ (by omega))]
      omega

theorem parseDigits_natToDec (n : Nat) : parseDigits (natToDec n) = n :=
  parseDigits_natToDecAux (n + 1) n (by omega)

theorem dropWhile_eq_self_of_all_false {p : Char → Bool} {l : List Char}
    (h : ∀ c ∈ l, p c = false) : l.dropWhile p = l := by
  cases l with
  | nil => rfl
  | cons c t => simp [List.dropWhile, h c (by simp)]

theorem rustTrim_of_no_ws {l : List Char}
    (h : ∀ c ∈ l, rustIsWhitespace c = false) : rustTrim l = l := by
  unfold rustTrim
  rw [dropWhile_eq_self_of_all_false h]
  rw [dropWhile_eq_self_of_all_false (by intro c hc; exact h c (by simpa using hc))]
  simp

theorem parseUsize_natToDec {n : Nat} (h : n < 2 ^ 64) :
    parseUsize (natToDec n) = some n := by
  have hd := natToDec_all_digits n
  have hne := natToDec_ne_nil n
  have hhead : (natToDec n).head? ≠ some '+' := by
    cases hnd : natToDec n with
    | nil => simp
    | cons c t =>
      have hc0 : ∃ d, d < 10 ∧ c = digitChar d :=
        natToDec_chars n c (by rw [hnd]; simp)
      obtain ⟨d, hdlt, rfl⟩ := hc0
      simp only [List.head?]
      intro hcp
      exact (digitChar_facts d hdlt).2.2 (by simpa using hcp)
  unfold parseUsize
  simp only [if_neg hhead]
  rw [if_neg (by simpa [List.isEmpty_iff] using hne)]
  rw [if_pos (by rw [List.all_eq_true]; intro c hc; exact hd c hc)]
  simp only [parseDigits_natToDec]
  rw [if_pos h]

theorem wellFormedFrame_length {f : List Nat} (h : wellFormedFrame f) :
    rpcHeaderLen < f.length := by
  unfold wellFormedFrame checkBuffer at h
  by_cases h16 : f.length ≤ rpcHeaderLen
  · rw [if_pos h16] at h
    exact absurd h (by simp)
  · omega

/-- Destructed form of a well-formed frame: the header prologue is a prefix,
the first `\r` after it sits at offset `d`, the digit region decodes and
parses to `n`, and the frame length is exactly `header + digits + \r\n\r\n +
body`. -/
theorem wellFormedFrame_spec {f : List Nat} (h : wellFormedFrame f) :
    ∃ d s n,
      rpcHeaderBytes.isPrefixOf f = true ∧
      (f.drop rpcHeaderLen).findIdx? (fun byte => byte == 13) = some d ∧
      utf8Decode? ((f.drop rpcHeaderLen).take d) = some s ∧
      parseUsize (rustTrim s) = some n ∧
      f.length = rpcHeaderLen + d + 4 + n := by
  have h16 := wellFormedFrame_length h
  unfold wellFormedFrame checkBuffer at h
  rw [if_neg (by omega)] at h
  split at h
  case isFalse hpre => exact absurd h (by simp)
  case isTrue hpre =>
    split at h
    case h_1 => exact absurd h (by simp)
    case h_2 d hfind =>
      split at h
      case h_1 => exact absurd h (by simp)
      case h_2 s hutf =>
        split at h
        case h_1 => exact absurd h (by simp)
        case h_2 n hparse =>
          split at h
          case isTrue => exact absurd h (by simp)
          case isFalse hend =>
            have hfl : rpcHeaderLen + d + 4 + n = f.length := by
              simpa using h
            exact ⟨d, s, n, hpre, hfind, hutf, hparse, by omega⟩

theorem findIdx?_some_lt {p : Nat → Bool} {l : List Nat} {i : Nat}
    (h : l.findIdx? p = some i) : i < l.length :=
  (List.findIdx?_eq_some_iff_findIdx_eq.mp h).1

/-- Scanning any extension of a well-formed frame finds the same frame. -/
theorem checkBuffer_extend {f r : List Nat} (h : wellFormedFrame f) :
    checkBuffer (f ++ r) = .done f.length := by
  have h16 := wellFormedFrame_length h
  obtain ⟨d, s, n, hpre, hfind, hutf, hparse, hlen⟩ := wellFormedFrame_spec h
  have hdlt : d < (f.drop rpcHeaderLen).length := findIdx?_some_lt hfind
  have hdrop : (f ++ r).drop rpcHeaderLen = f.drop rpcHeaderLen ++ r :=
    List.drop_append_of_le_length (by omega)
  unfold checkBuffer
  rw [if_neg (by simp [List.length_append]; omega)]
  rw [if_pos (by
    rw [List.isPrefixOf_iff_prefix] at hpre ⊢
    exact hpre.trans (List.prefix_append f r))]
  rw [hdrop, List.findIdx?_append, hfind]
  simp only [Option.or]
  rw [List.take_append_of_le_length (by omega)]
  simp only [hutf, hparse]
  rw [if_neg (by simp [List.length_append]; omega)]
  congr 1
  omega

/-- Scanning a proper prefix of a well-formed frame always reports
"need more bytes" — never an error and never a (different) frame. -/
theorem checkBuffer_take {f : List Nat} (h : wellFormedFrame f) (k : Nat)
    (hlt : k < f.length) : checkBuffer (f.take k) = .needMore := by
  have h16 := wellFormedFrame_length h
  obtain ⟨d, s, n, hpre, hfind, hutf, hparse, hlen⟩ := wellFormedFrame_spec h
  have hklen : (f.take k).length = k := by simp [List.length_take]; omega
  by_cases hk : k ≤ rpcHeaderLen
  · unfold checkBuffer
    rw [if_pos (by omega)]
  · unfold checkBuffer
    rw [if_neg (by omega)]
    have hlen16 : rpcHeaderBytes.length = rpcHeaderLen := rfl
    rw [if_pos (by
      rw [List.isPrefixOf_iff_prefix, List.prefix_iff_eq_take, List.take_take]
      rw [show rpcHeaderBytes.length ⊓ k = rpcHeaderBytes.length by
        rw [hlen16]; omega]
      rw [← List.prefix_iff_eq_take]
      exact List.isPrefixOf_iff_prefix.mp hpre)]
    rw [List.drop_take]
    cases hfind2 : ((f.drop rpcHeaderLen).take (k - rpcHeaderLen)).findIdx?
        (fun byte => byte == 13) with
    | none => rfl
    | some d2 =>
      dsimp only
      have hd2 : d2 = d := by
        have happ : (f.drop rpcHeaderLen).take (k - rpcHeaderLen) ++
            (f.drop rpcHeaderLen).drop (k - rpcHeaderLen) =
              f.drop rpcHeaderLen := List.take_append_drop _ _
        have hfd : (((f.drop rpcHeaderLen).take (k - rpcHeaderLen) ++
            (f.drop rpcHeaderLen).drop (k - rpcHeaderLen)).findIdx?
              (fun byte => byte == 13)) = some d := by rw [happ]; exact hfind
        rw [List.findIdx?_append, hfind2] at hfd
        simpa [Option.or] using hfd
      subst hd2
      have hd2lt : d2 < ((f.drop rpcHeaderLen).take (k - rpcHeaderLen)).length :=
        findIdx?_some_lt hfind2
      have hd2len : d2 < k - rpcHeaderLen := by
        simp [List.length_take] at hd2lt
        omega
      rw [List.take_take]
      rw [show d2 ⊓ (k - rpcHeaderLen) = d2 by omega]
      simp only [hutf, hparse]
      rw [if_pos (by omega)]

theorem checkBuffer_proper_front {f buf : List Nat} (h : wellFormedFrame f)
    (hp : buf <+: f) (hlt : buf.length < f.length) :
    checkBuffer buf = .needMore := by
  have hbuf : buf = f.take buf.length := List.prefix_iff_eq_take.mp hp
  rw [hbuf]
  exact checkBuffer_take h buf.length hlt

theorem runStream_single {f : List Nat} (h : wellFormedFrame f) :
    runStream [] [f] =
      match utf8Decode? f with
      | none => .panicked
      | some _ => .next (.ok f) [] := by
  unfold runStream
  rw [List.nil_append, show checkBuffer f = .done f.length from h]
  dsimp only
  rw [List.take_length, List.drop_length]

theorem runStream_wellFormed_chunks {f : List Nat} (h : wellFormedFrame f) :
    ∀ (cs : List (List Nat)) (acc : List Nat),
      acc.length < f.length → acc ++ cs.flatten = f →
      runStream acc cs = runStream [] [f] := by
  intro cs
  induction cs with
  | nil =>
    intro acc hlt hacc
    simp at hacc
    subst hacc
    exact absurd hlt (lt_irrefl _)
  | cons c cs ih =>
    intro acc hlt hacc
    have hb : (acc ++ c) ++ cs.flatten = f := by
      simpa [List.append_assoc] using hacc
    conv_lhs => rw [runStream]
    by_cases hblt : (acc ++ c).length < f.length
    · rw [checkBuffer_proper_front h ⟨cs.flatten, hb⟩ hblt]
      exact ih (acc ++ c) hblt hb
    · have hbf : acc ++ c = f := by
        have hfl : cs.flatten = [] := by
          have hlens := congrArg List.length hb
          rw [List.length_append] at hlens
          have : cs.flatten.length = 0 := by omega
          exact List.length_eq_zero.mp this
        simpa [hfl] using hb
      rw [hbf]
      rw [show checkBuffer f = .done f.length from h]
      dsimp only
      rw [List.take_length, List.drop_length, runStream_single h]

theorem natToDec_no_cr (n : Nat) : '\r' ∉ natToDec n := by
  intro hmem
  obtain ⟨d, hd, heq⟩ := natToDec_chars n '\r' hmem
  have hws := (digitChar_facts d hd).2.1
  rw [← heq] at hws
  exact absurd hws (by decide)

theorem intRepr_no_cr (i : Int) : '\r' ∉ intRepr i := by
  cases i with
  | ofNat n => exact natToDec_no_cr n
  | negSucc n =>
    intro hmem
    rw [show intRepr (Int.negSucc n) = '-' :: natToDec (n + 1) from rfl] at hmem
    rcases List.mem_cons.mp hmem with h | h
    · exact absurd h (by decide)
    · exact natToDec_no_cr (n + 1) h

theorem hexDigit_ne_cr (d : Nat) : hexDigit d ≠ '\r' := by
  unfold hexDigit
  split
  · rename_i h
    intro heq
    have hws := (digitChar_facts d h).2.1
    rw [heq] at hws
    exact absurd hws (by decide)
  · split
    · decide
    · split
      · decide
      · split
        · decide
        · split
          · decide
          · split <;> decide

theorem escapeChar_no_cr (c : Char) : '\r' ∉ escapeChar c := by
  intro hmem
  unfold escapeChar at hmem
  split at hmem
  · simp at hmem
  · split at hmem
    · simp at hmem
    · split at hmem
      · simp at hmem
      · split at hmem
        · simp at hmem
        · split at hmem
          · simp at hmem
          · split at hmem
            · simp at hmem
            · split at hmem
              · simp at hmem
              · split at hmem
                · simp at hmem
                  rcases hmem with h | h
                  · exact hexDigit_ne_cr _ h.symm
                  · exact hexDigit_ne_cr _ h.symm
                · rename_i hq _ _ hr _ _ _ _
                  simp at hmem
                  exact hr hmem.symm

theorem escapeString_no_cr (s : List Char) : '\r' ∉ escapeString s := by
  intro hmem
  unfold escapeString at hmem
  rw [List.mem_flatten] at hmem
  obtain ⟨l, hl, hcl⟩ := hmem
  rw [List.mem_map] at hl
  obtain ⟨c, _, rfl⟩ := hl
  exact escapeChar_no_cr c hcl

mutual

theorem serializeJson_no_cr : ∀ v : Json, '\r' ∉ serializeJson v
  | .null => by rw [serializeJson]; decide
  | .bool b => by rw [serializeJson]; cases b <;> decide
  | .num i => by rw [serializeJson]; exact intRepr_no_cr i
  | .str s => by
      rw [serializeJson]
      intro hmem
      simp only [List.mem_cons, List.mem_append] at hmem
      rcases hmem with h | h | h
      · exact absurd h (by decide)
      · exact escapeString_no_cr s h
      · simp at h
  | .arr items => by
      rw [serializeJson]
      intro hmem
      simp only [List.mem_cons, List.mem_append] at hmem
      rcases hmem with h | h | h
      · exact absurd h (by decide)
      · exact serializeItems_no_cr items h
      · simp at h
  | .obj fields => by
      rw [serializeJson]
      intro hmem
      simp only [List.mem_cons, List.mem_append] at hmem
      rcases hmem with h | h | h
      · exact absurd h (by decide)
      · exact serializeFields_no_cr fields h
      · simp at h

theorem serializeItems_no_cr : ∀ items : JsonList, '\r' ∉ serializeItems items
  | .nil => by rw [serializeItems]; simp
  | .cons x .nil => by rw [serializeItems]; exact serializeJson_no_cr x
  | .cons x (.cons y tl) => by
      rw [serializeItems]
      intro hmem
      simp only [List.mem_append, List.mem_cons] at hmem
      rcases hmem with h | h | h
      · exact serializeJson_no_cr x h
      · exact absurd h (by decide)
      · exact serializeItems_no_cr (.cons y tl) h

theorem serializeFields_no_cr : ∀ fields : JsonFields, '\r' ∉ serializeFields fields
  | .nil => by rw [serializeFields]; simp
  | .cons k v .nil => by
      rw [serializeFields]
      intro hmem
      rcases List.mem_cons.mp hmem with h | h
      · exact absurd h (by decide)
      · rcases List.mem_append.mp h with h1 | h2
        · rcases List.mem_append.mp h1 with h3 | h3
          · exact escapeString_no_cr k h3
          · exact absurd h3 (by decide)
        · exact serializeJson_no_cr v h2
  | .cons k v (.cons k2 v2 tl) => by
      rw [serializeFields]
      intro hmem
      rcases List.mem_cons.mp hmem with h | h
      · exact absurd h (by decide)
      · rcases List.mem_append.mp h with h1 | h2
        · rcases List.mem_append.mp h1 with h3 | h3
          · rcases List.mem_append.mp h3 with h4 | h4
            · exact escapeString_no_cr k h4
            · exact absurd h4 (by decide)
          · exact serializeJson_no_cr v h3
        · rcases List.mem_cons.mp h2 with h3 | h3
          · exact absurd h3 (by decide)
          · exact serializeFields_no_cr (.cons k2 v2 tl) h3

end

theorem findSubstrIdx_none_of_no_head {sep : List Char} {hd : Char}
    (hsep : sep.head? = some hd) {l : List Char} (hl : ∀ c ∈ l, c ≠ hd) :
    findSubstrIdx sep l = none := by
  obtain ⟨st, rfl⟩ : ∃ st, sep = hd :: st := by
    cases sep with
    | nil => simp at hsep
    | cons s0 st => exact ⟨st, by simpa using hsep⟩
  induction l with
  | nil => simp [findSubstrIdx]
  | cons c rest ih =>
    unfold findSubstrIdx
    rw [if_neg (by
      simp [List.isPrefixOf]
      intro heq
      exact absurd heq.symm (hl c (by simp)))]
    rw [ih (fun c hc => hl c (by simp [hc]))]
    rfl

theorem findSubstrIdx_append_of_no_head {sep : List Char} {hd : Char}
    (hsep : sep.head? = some hd) {l m : List Char} (hl : ∀ c ∈ l, c ≠ hd)
    (hm : sep.isPrefixOf m = true) :
    findSubstrIdx sep (l ++ m) = some l.length := by
  obtain ⟨st, rfl⟩ : ∃ st, sep = hd :: st := by
    cases sep with
    | nil => simp at hsep
    | cons s0 st => exact ⟨st, by simpa using hsep⟩
  induction l with
  | nil =>
    cases m with
    | nil => simp [List.isPrefixOf] at hm
    | cons a r =>
      rw [List.nil_append]
      unfold findSubstrIdx
      rw [if_pos hm]
      rfl
  | cons c rest ih =>
    rw [List.cons_append]
    unfold findSubstrIdx
    rw [if_neg (by
      simp [List.isPrefixOf]
      intro heq
      exact absurd heq.symm (hl c (by simp)))]
    rw [ih (fun c hc => hl c (by simp [hc]))]
    simp

/-- Framing round-trip: decoding a wire text of the exact shape
`Content-Length: {n}\r\n\r\n{body}` (with `n = body.length` and a
carriage-return-free body, as every serde-serialized body is) reaches the
deserializer on exactly the original body. -/
theorem jsonrpc_decode_frame {α : Type} (deser : List Char → Option α)
    (B : List Char) (hB : ∀ c ∈ B, c ≠ '\r') (hfit : B.length < 2 ^ 64) :
    jsonrpc_decode deser (rpcHeaderChars ++ natToDec B.length ++ crlf2 ++ B) =
      match deser B with
      | none => .error .jsonError
      | some v => .ok v := by
  have hhd : crlf2.head? = some '\r' := rfl
  have hL : ∀ c ∈ rpcHeaderChars ++ natToDec B.length, c ≠ '\r' := by
    intro c hc
    rcases List.mem_append.mp hc with h | h
    · revert h
      have : ∀ c ∈ rpcHeaderChars, c ≠ '\r' := by decide
      exact this c
    · intro heq
      subst heq
      exact natToDec_no_cr B.length h
  have hassoc : rpcHeaderChars ++ natToDec B.length ++ crlf2 ++ B =
      (rpcHeaderChars ++ natToDec B.length) ++ (crlf2 ++ B) := by
    simp [List.append_assoc]
  have hfound : findSubstrIdx crlf2
      (rpcHeaderChars ++ natToDec B.length ++ crlf2 ++ B) =
        some (rpcHeaderChars ++ natToDec B.length).length := by
    rw [hassoc]
    exact findSubstrIdx_append_of_no_head hhd hL
      (List.isPrefixOf_iff_prefix.mpr (List.prefix_append crlf2 B))
  have hdropped : (rpcHeaderChars ++ natToDec B.length ++ crlf2 ++ B).drop
      ((rpcHeaderChars ++ natToDec B.length).length + crlf2.length) = B := by
    rw [show (rpcHeaderChars ++ natToDec B.length).length + crlf2.length =
      ((rpcHeaderChars ++ natToDec B.length) ++ crlf2).length by simp; omega]
    exact List.drop_left _ _
  have htaken : (rpcHeaderChars ++ natToDec B.length ++ crlf2 ++ B).take
      (rpcHeaderChars ++ natToDec B.length).length =
        rpcHeaderChars ++ natToDec B.length := by
    rw [hassoc]
    exact List.take_left _ _
  have hsplit : splitFirstTwo crlf2
      (rpcHeaderChars ++ natToDec B.length ++ crlf2 ++ B) =
        (rpcHeaderChars ++ natToDec B.length, some B) := by
    unfold splitFirstTwo
    rw [hfound]
    dsimp only
    rw [hdropped]
    rw [findSubstrIdx_none_of_no_head hhd hB]
    dsimp only
    rw [htaken]
  unfold jsonrpc_decode
  rw [hsplit]
  dsimp only
  rw [if_pos (List.isPrefixOf_iff_prefix.mpr (List.prefix_append _ _))]
  rw [show (rpcHeaderChars ++ natToDec B.length).drop rpcHeaderLen =
    natToDec B.length by
      rw [show rpcHeaderLen = rpcHeaderChars.length from rfl]
      exact List.drop_left _ _]
  rw [rustTrim_of_no_ws (natToDec_no_ws B.length)]
  rw [parseUsize_natToDec hfit]
  dsimp only
  rw [if_neg (by simp)]
  rfl

/-! # Claim theorems -/

/-- Claim C1 (code bug evidence): `apply_diff_to_document` applies every edit
of one notification against the ORIGINAL line table and keeps only the last
edit's result, so two adjacent non-overlapping edits supplied together as one
multi-part edit give `aYcd`, while applying them in sequence with line
boundaries recomputed in between (the behavior the claim describes) gives
`XYcd`. -/
theorem C1_multi_edit_applied_to_original :
    docAb.apply_diff_to_document [editX, editY] = some "aYcd".data ∧
    docAb.apply_diff_to_document [editX] = some "Xbcd".data ∧
    (LineSeperatedDocument.ofDoc
        ⟨"file:///a.huml", "huml", 2, "Xbcd".data⟩).apply_diff_to_document [editY] =
      some "XYcd".data ∧
    ("aYcd".data : List Char) ≠ "XYcd".data :=
  ⟨by decide, by decide, by decide, by decide⟩

/-- Claim C2 (code bug evidence): a didChange whose single content change has
no range — the full-text replacement form — does not replace the stored text
with the event's text `new`; the change is filtered out (the live code has the
full-replacement path commented out) and the stored text becomes empty. -/
theorem C2_full_replacement_is_dropped :
    handle_did_change (.initialized stOld) fullReplaceParams =
      some (.initialized
        { stOld with documents := [.ofDoc ⟨"file:///d.huml", "huml", 2, []⟩] }) ∧
    ([] : List Char) ≠ "new".data :=
  ⟨by decide, by decide⟩

/-- Claim C3: decoding inverts encoding on every representable value — any
JSON value the serde model round-trips (and whose serialized length fits in
`usize`, which is automatic in Rust) satisfies
`jsonrpc_decode (jsonrpc_encode v) = Ok v`. -/
theorem C3_decode_encode_roundtrip (v : Json)
    (hrep : jsonParse (serializeJson v) = some v)
    (hfit : (serializeJson v).length < 2 ^ 64) :
    jsonrpc_decode jsonParse (jsonrpc_encode serializeJson v) = .ok v := by
  have hB : ∀ c ∈ serializeJson v, c ≠ '\r' := by
    intro c hc heq
    subst heq
    exact serializeJson_no_cr v hc
  unfold jsonrpc_encode
  rw [jsonrpc_decode_frame jsonParse (serializeJson v) hB hfit, hrep]

/-- Claim C3 witness: the codec test's value round-trips through the wire. -/
theorem C3_witness :
    jsonParse (serializeJson jsonV0) = some jsonV0 ∧
    (serializeJson jsonV0).length < 2 ^ 64 ∧
    jsonrpc_decode jsonParse (jsonrpc_encode serializeJson jsonV0) = .ok jsonV0 :=
  ⟨by rfl, by decide, C3_decode_encode_roundtrip jsonV0 (by rfl) (by decide)⟩

/-- Claim C4: for every well-formed frame and every split of its bytes into
read chunks (empty chunks allowed, boundaries anywhere), the reader yields
the same message as for the unsplit byte sequence. -/
theorem C4_chunked_reads_equal_unsplit (f : List Nat) (cs : List (List Nat))
    (hwf : wellFormedFrame f) (hcs : cs.flatten = f) :
    runStream [] cs = runStream [] [f] := by
  refine runStream_wellFormed_chunks hwf cs [] ?_ (by simpa using hcs)
  have := wellFormedFrame_length hwf
  simp
  omega

/-- Claim C4 witness: `frameA` delivered in four uneven chunks (one empty)
decodes as the unsplit frame does. -/
theorem C4_witness :
    wellFormedFrame frameA ∧ chunksA.flatten = frameA ∧
    runStream [] chunksA = runStream [] [frameA] :=
  ⟨by decide, by decide,
    C4_chunked_reads_equal_unsplit frameA chunksA (by decide) (by decide)⟩

/-- Claim C5 counterexample: the item the reader yields for `frameA` is the
whole frame — the header followed by the body — not the body without the
header as the claim states. -/
theorem C5_counterexample_item_is_not_body :
    runStream [] [frameA] = .next (.ok frameA) [] ∧ frameA ≠ bodyA :=
  ⟨by rfl, by decide⟩

/-- Claim C5 amended: each item the frame reader yields is one complete
protocol frame (header and body), items appear in arrival order, and after
yielding each item exactly header+body bytes have been removed from the front
of the accumulation buffer.  Frames whose bytes are not valid UTF-8 are never
yielded — the final `str::from_utf8(...).expect` panics instead — so the
yields are asserted under a UTF-8 validity side condition. -/
theorem C5_amended_yields_full_frames (f1 f2 : List Nat)
    (h1 : wellFormedFrame f1) (h2 : wellFormedFrame f2)
    (hu1 : (utf8Decode? f1).isSome) (hu2 : (utf8Decode? f2).isSome) :
    runStream [] [f1 ++ f2] = .next (.ok f1) f2 ∧
    runStream f2 [[]] = .next (.ok f2) [] := by
  obtain ⟨s1, hs1⟩ := Option.isSome_iff_exists.mp hu1
  obtain ⟨s2, hs2⟩ := Option.isSome_iff_exists.mp hu2
  constructor
  · unfold runStream
    rw [List.nil_append, checkBuffer_extend h1]
    dsimp only
    rw [List.take_left, hs1]
    dsimp only
    rw [List.drop_left]
  · unfold runStream
    rw [List.append_nil, show checkBuffer f2 = .done f2.length from h2]
    dsimp only
    rw [List.take_length, hs2]
    dsimp only
    rw [List.drop_length]

/-- Claim C5 witness: two concrete UTF-8 frames back to back are yielded
whole, in order, draining exactly each frame's bytes. -/
theorem C5_amended_witness :
    wellFormedFrame frameA ∧ wellFormedFrame frameB ∧
    (utf8Decode? frameA).isSome ∧ (utf8Decode? frameB).isSome ∧
    (runStream [] [frameA ++ frameB] = .next (.ok frameA) frameB ∧
      runStream frameB [[]] = .next (.ok frameB) []) :=
  ⟨by decide, by decide, by decide, by decide,
    C5_amended_yields_full_frames frameA frameB
      (by decide) (by decide) (by decide) (by decide)⟩

/-- Claim C6 counterexample: the wire text `{"jsonrpc":"2.0"}` — the test
body without the header prefix — fails with `IncompleteData` (the missing
`\r\n\r\n` separator is detected before any header-prefix check), not with
the header-format error the claim requires. -/
theorem C6_counterexample_bare_body_error :
    jsonrpc_decode testStructDeser bare17 = .error .incompleteData ∧
    DecodeError.incompleteData ≠ DecodeError.missingOrInvalidHeader :=
  ⟨by rfl, by decide⟩

/-- Claim C6 amended: `Content-Length: 17\r\n\r\n` followed by the body
decodes to a structure whose jsonrpc field is `2.0`; a separator-bearing text
whose header lacks the prefix fails with the header-format error; a text with
no `\r\n\r\n` separator at all (such as the bare body) fails with the
incomplete-data error rather than the header-format error; a declared-length
mismatch fails with the incomplete-data error; a non-numeric length fails
with the length-parse error; and a non-JSON body fails with the JSON
error. -/
theorem C6_amended_decode_error_taxonomy :
    jsonrpc_decode testStructDeser good17 = .ok ⟨"2.0".data⟩ ∧
    jsonrpc_decode testStructDeser badPrologue17 = .error .missingOrInvalidHeader ∧
    jsonrpc_decode testStructDeser bare17 = .error .incompleteData ∧
    jsonrpc_decode testStructDeser wrongLen17 = .error .incompleteData ∧
    jsonrpc_decode testStructDeser notNumber17 = .error .contentLengthNotNumber ∧
    jsonrpc_decode testStructDeser badBody7 = .error .jsonError :=
  ⟨by rfl, by rfl, by rfl, by rfl, by rfl, by rfl⟩

/-- Any diff containing an edit on which `applyOneEdit` panics makes the whole
`apply_diff_to_document` call panic (the accumulator is ignored by the fold,
so the abort propagates regardless of position). -/
theorem apply_diff_aborts_of_mem (d : LineSeperatedDocument)
    (pre post : List (Range × List Char)) (e : Range × List Char)
    (he : applyOneEdit d.lines e.1 e.2 = none) :
    d.apply_diff_to_document (pre ++ e :: post) = none := by
  unfold LineSeperatedDocument.apply_diff_to_document
  suffices h : ∀ init : List Char,
      List.foldlM (fun _document rc => applyOneEdit d.lines rc.1 rc.2) init
        (pre ++ e :: post) = none by exact h []
  induction pre with
  | nil =>
    intro init
    rw [List.nil_append, List.foldlM_cons, he]
    rfl
  | cons a pre ih =>
    intro init
    rw [List.cons_append, List.foldlM_cons]
    cases ha : applyOneEdit d.lines a.1 a.2 with
    | none => rfl
    | some x => exact ih x

/-- Claim C7: an edit whose start or end line index exceeds the number of
lines in the stored line table is rejected fatally — the single edit panics
(`none`), and every `apply_diff_to_document` call whose diff contains such an
edit aborts without producing a text. -/
theorem C7_out_of_range_edit_is_fatal (d : LineSeperatedDocument) (r : Range)
    (t : List Char) (pre post : List (Range × List Char))
    (h : d.lines.length < r.start.line ∨ d.lines.length < r.stop.line) :
    applyOneEdit d.lines r t = none ∧
    d.apply_diff_to_document (pre ++ (r, t) :: post) = none := by
  have h1 : applyOneEdit d.lines r t = none := by
    unfold applyOneEdit
    rw [if_pos (by
      simp only [gt_iff_lt, Bool.or_eq_true, decide_eq_true_eq]
      omega)]
  exact ⟨h1, apply_diff_aborts_of_mem d pre post (r, t) h1⟩

/-- Claim C7 witness: an edit at line 5 of the one-line document aborts. -/
theorem C7_witness :
    (docAb.lines.length < 5 ∨ docAb.lines.length < 0) ∧
    (applyOneEdit docAb.lines ⟨⟨5, 0⟩, ⟨0, 0⟩⟩ "X".data = none ∧
      docAb.apply_diff_to_document [(⟨⟨5, 0⟩, ⟨0, 0⟩⟩, "X".data)] = none) :=
  ⟨by decide,
    C7_out_of_range_edit_is_fatal docAb ⟨⟨5, 0⟩, ⟨0, 0⟩⟩ "X".data [] [] (by decide)⟩

/-- Claim C8 counterexample: an initialize request received in the `Shutdown`
state is not rejected — it transitions the server to `Initialized` again with
a success payload, so on the reachable sequence initialize → shutdown →
initialize the transition to Initialized happens twice and the second time
not from `Uninitialized`. -/
theorem C8_counterexample_initialize_after_shutdown :
    (handle_initialize_req Server.shutdown emptyInitParams).1 =
      Server.initialized ⟨emptyInitParams.capabilities, false, .off, []⟩ ∧
    (handle_initialize_req Server.shutdown emptyInitParams).2 =
      .result (.initializeRes ⟨⟩) ∧
    (handle_shutdown_req
        (handle_initialize_req Server.uninitialized emptyInitParams).1).1 =
      Server.shutdown :=
  ⟨by decide, by decide, by decide⟩

/-- Claim C8 amended: while `Initialized`, a further initialize request
returns error −32002 and leaves the state unchanged — same client metadata,
trace level and document store; an initialize request in either
non-Initialized state (Uninitialized or Shutdown) installs a fresh
Initialized state, so after a shutdown the server can be initialized again. -/
theorem C8_amended_initialize_guard (st : InitializedServerState)
    (p : InitializeParams) :
    handle_initialize_req (Server.initialized st) p =
      (Server.initialized st,
        .error (-32002) "Server is already initialized" none) ∧
    (handle_initialize_req Server.uninitialized p).1 =
      Server.initialized ⟨p.capabilities, false, .off, []⟩ ∧
    (handle_initialize_req Server.shutdown p).1 =
      Server.initialized ⟨p.capabilities, false, .off, []⟩ :=
  ⟨rfl, rfl, rfl⟩

/-- Claim C9: the derived line table is never stale — if every stored document
satisfies `lines = text.lines()`, then after a didOpen (register or replace)
and after a didChange (apply edits) every stored document still satisfies
it. -/
theorem C9_line_table_consistent (s s' : Server) (doc : TextDocumentItemOwned)
    (p : DidChangeParams) (h : docsConsistent s) :
    (handle_did_open s doc = some s' → docsConsistent s') ∧
    (handle_did_change s p = some s' → docsConsistent s') := by
  constructor
  · intro hop
    cases s with
    | uninitialized => simp [handle_did_open] at hop
    | shutdown => simp [handle_did_open] at hop
    | initialized st =>
      unfold handle_did_open at hop
      have hs' := Option.some.inj hop
      subst hs'
      intro d hd
      cases hfind : findDocIdx st.documents doc.uri with
      | some q =>
        rw [hfind] at hd
        rcases List.mem_or_eq_of_mem_set hd with h1 | h1
        · exact h d h1
        · subst h1; rfl
      | none =>
        rw [hfind] at hd
        rcases List.mem_append.mp hd with h1 | h1
        · exact h d h1
        · simp at h1; subst h1; rfl
  · intro hch
    cases s with
    | uninitialized => simp [handle_did_change] at hch
    | shutdown => simp [handle_did_change] at hch
    | initialized st =>
      unfold handle_did_change at hch
      dsimp only at hch
      cases hfind : findDocIdx st.documents p.uri with
      | none =>
        rw [hfind] at hch
        have hs' := Option.some.inj hch
        subst hs'
        exact h
      | some q =>
        obtain ⟨i, dl⟩ := q
        rw [hfind] at hch
        dsimp only at hch
        cases happ : dl.apply_diff_to_document (p.content_changes.filterMap
            (fun change => change.range.map (fun r => (r, change.text)))) with
        | none => rw [happ] at hch; exact absurd hch (by simp)
        | some txt =>
          rw [happ] at hch
          have hs' := Option.some.inj hch
          subst hs'
          intro d hd
          rcases List.mem_or_eq_of_mem_set hd with h1 | h1
          · exact h d h1
          · subst h1; rfl

/-- Claim C9 witness: opening a two-line document in the empty store yields a
store whose line table matches its text. -/
theorem C9_witness :
    docsConsistent (Server.initialized
      { stEmpty with documents := [.ofDoc docW] }) :=
  (C9_line_table_consistent (Server.initialized stEmpty)
      (Server.initialized { stEmpty with documents := [.ofDoc docW] })
      docW allRangelessParams (by intro d hd; simp [stEmpty] at hd)).1 rfl

/-- Claim C10: with an empty edit list `apply_diff_to_document` returns the
empty string rather than the current text, and consequently a didChange all
of whose content changes lack a range (so the filter removes every change)
leaves the matched document's stored text empty. -/
theorem C10_empty_diff_gives_empty_text (d : LineSeperatedDocument)
    (st : InitializedServerState) (p : DidChangeParams) (i : Nat)
    (hall : ∀ c ∈ p.content_changes, c.range = none)
    (hfind : findDocIdx st.documents p.uri = some (i, d)) :
    d.apply_diff_to_document [] = some [] ∧
    handle_did_change (.initialized st) p = some (.initialized
      { st with documents := st.documents.set i (.ofDoc
        { uri := d.full_document.uri
          language_id := d.full_document.language_id
          version := p.version
          text := [] }) }) := by
  have hdiff : p.content_changes.filterMap
      (fun change => change.range.map (fun r => (r, change.text))) = [] := by
    rw [List.filterMap_eq_nil_iff]
    intro c hc
    rw [hall c hc]
    rfl
  refine ⟨rfl, ?_⟩
  unfold handle_did_change
  dsimp only
  rw [hfind]
  dsimp only
  rw [hdiff]
  rfl

/-- Claim C10 witness: the all-rangeless didChange on the concrete store
empties the stored text. -/
theorem C10_witness :
    (∀ c ∈ allRangelessParams.content_changes, c.range = none) ∧
    findDocIdx stOld.documents allRangelessParams.uri =
      some (0, .ofDoc ⟨"file:///d.huml", "huml", 1, "old".data⟩) ∧
    ((LineSeperatedDocument.ofDoc
        ⟨"file:///d.huml", "huml", 1, "old".data⟩).apply_diff_to_document [] =
      some [] ∧
      handle_did_change (.initialized stOld) allRangelessParams =
        some (.initialized { stOld with
          documents := stOld.documents.set 0
            (LineSeperatedDocument.ofDoc ⟨"file:///d.huml", "huml", 3, []⟩) })) :=
  ⟨by decide, by decide,
    C10_empty_diff_gives_empty_text _ stOld allRangelessParams 0
      (by decide) (by decide)⟩

end HumlLsp
